import Mathlib

/-!
# Smart Expense Tracker: a shallow embedding of `script.js`

The script keeps one array `expenses` of records `{id, desc, amount, category, date}`,
persists it in `localStorage`, and on every change runs `render`, which shows a filtered and
sorted list and a handful of statistics.

Conventions of the embedding

* A JavaScript Number is `JSNum`: `NaN` or an exact rational (rounding error of doubles and the
  infinities are not modelled).
* A JavaScript string is a Lean `String`, read through its list of characters. The script's
  text operations count UTF-16 units; on text of the Basic Multilingual Plane that is the same.
* Built-ins of the platform whose full behaviour is not in the script (`Number(text)`,
  number-to-text conversion, `JSON.parse`, `JSON.stringify`, the part of `Date` parsing that
  ECMAScript leaves to the implementation) are parameters of the definitions that call them.
* `Date` parsing of the date-only form `YYYY-MM-DD` is fixed by ECMAScript (UTC midnight of that
  day) and is modelled concretely.
-/

namespace ExpenseTracker

/-! ## Numbers -/

/-- A JavaScript Number: `NaN`, or a finite value (kept exact). -/
inductive JSNum where
  | nan
  | num (q : ℚ)
deriving DecidableEq

namespace JSNum

/-- The operator `+` on two Numbers: `NaN` is absorbing. -/
def add : JSNum → JSNum → JSNum
  | num a, num b => num (a + b)
  | _, _ => nan

instance : Add JSNum := ⟨add⟩

instance : Zero JSNum := ⟨num 0⟩

/-- ToBoolean on a Number: `0` and `NaN` are falsy. -/
def truthy : JSNum → Bool
  | nan => false
  | num q => decide (q ≠ 0)

/-- The expression `x / n` for a divisor `n` that is a non-zero count. -/
def divBy (x : JSNum) (n : ℚ) : JSNum :=
  match x with
  | nan => nan
  | num q => num (q / n)

/-- The function `Math.round`: the nearest integer, halves going up. -/
def round : JSNum → JSNum
  | nan => nan
  | num q => num (⌊q + 1 / 2⌋ : ℤ)

/-- The test `x <= 0` (false on `NaN`). -/
def leZero : JSNum → Bool
  | nan => false
  | num q => decide (q ≤ 0)

/-- The test `0 < x` (false on `NaN`). -/
def isPos : JSNum → Bool
  | nan => false
  | num q => decide (0 < q)

end JSNum

/-! ## Records -/

/-- One element of the `expenses` array. -/
structure Expense where
  id : ℚ
  desc : String
  amount : JSNum
  category : String
  date : String
deriving DecidableEq

/-! ## Dates

`new Date(text)` for a date-only ISO string is UTC midnight of that day, in milliseconds since
the epoch. `dayFromYear` and the month table are the ones of ECMAScript (`DayFromYear`,
`MakeDay`). -/

/-- The value of a decimal digit character. -/
def digitVal (c : Char) : Option Nat :=
  if c.isDigit then some (c.toNat - 48) else none

/-- Reads the shape `dddd-dd-dd` and returns year, month and day as written. -/
def parseYMD (s : String) : Option (Nat × Nat × Nat) :=
  match s.data with
  | [a, b, c, d, '-', e, f, '-', g, h] =>
    match digitVal a, digitVal b, digitVal c, digitVal d,
          digitVal e, digitVal f, digitVal g, digitVal h with
    | some a, some b, some c, some d, some e, some f, some g, some h =>
      some (1000 * a + 100 * b + 10 * c + d, 10 * e + f, 10 * g + h)
    | _, _, _, _, _, _, _, _ => none
  | _ => none

/-- Gregorian leap year. -/
def isLeap (y : Nat) : Bool :=
  (y % 4 == 0 && y % 100 != 0) || y % 400 == 0

/-- Number of days of month `m` (1 to 12) in year `y`. -/
def daysInMonth (y m : Nat) : Nat :=
  match m with
  | 1 => 31
  | 2 => if isLeap y then 29 else 28
  | 3 => 31
  | 4 => 30
  | 5 => 31
  | 6 => 30
  | 7 => 31
  | 8 => 31
  | 9 => 30
  | 10 => 31
  | 11 => 30
  | 12 => 31
  | _ => 0

/-- A year, month and day that name a day of the calendar. -/
def validYMD (t : Nat × Nat × Nat) : Bool :=
  decide (1 ≤ t.2.1) && decide (t.2.1 ≤ 12) && decide (1 ≤ t.2.2) &&
    decide (t.2.2 ≤ daysInMonth t.1 t.2.1)

/-- The calendar day written by a well-formed `YYYY-MM-DD` string. -/
def isoDate (s : String) : Option (Nat × Nat × Nat) :=
  match parseYMD s with
  | some t => if validYMD t then some t else none
  | none => none

/-- ECMAScript `DayFromYear`: the day number of 1 January of year `y`. -/
def dayFromYear (y : Int) : Int :=
  365 * (y - 1970) + (y - 1969) / 4 - (y - 1901) / 100 + (y - 1601) / 400

/-- Days of the year that precede month `m` (1 to 12). -/
def daysBeforeMonth (leap : Bool) (m : Nat) : Nat :=
  match m with
  | 1 => 0
  | 2 => 31
  | 3 => 59 + leap.toNat
  | 4 => 90 + leap.toNat
  | 5 => 120 + leap.toNat
  | 6 => 151 + leap.toNat
  | 7 => 181 + leap.toNat
  | 8 => 212 + leap.toNat
  | 9 => 243 + leap.toNat
  | 10 => 273 + leap.toNat
  | 11 => 304 + leap.toNat
  | 12 => 334 + leap.toNat
  | _ => 0

/-- ECMAScript `MakeDay`: the day number of a calendar day. -/
def dayNumber (t : Nat × Nat × Nat) : Int :=
  dayFromYear t.1 + daysBeforeMonth (isLeap t.1) t.2.1 + (t.2.2 : Int) - 1

/-- Milliseconds per day. -/
def msPerDay : Int := 86400000

/-- Time value of UTC midnight of a calendar day. -/
def utcMs (t : Nat × Nat × Nat) : Int :=
  dayNumber t * msPerDay

/-- The time value of `new Date(text)`; `none` is an invalid date (time value `NaN`). A string
that is not a well-formed date-only ISO string is handed to `legacy`, which stands for the rest of
`Date.parse` (other ISO forms and the implementation-defined fallback). -/
def dateTime (legacy : String → Option Int) (s : String) : Option Int :=
  match isoDate s with
  | some t => some (utcMs t)
  | none => legacy s

/-- The comparison `a >= b` on two dates (false as soon as one is invalid). -/
def dateGe (a b : Option Int) : Bool :=
  match a, b with
  | some x, some y => decide (y ≤ x)
  | _, _ => false

/-- The comparison `a <= b` on two dates (false as soon as one is invalid). -/
def dateLe (a b : Option Int) : Bool :=
  match a, b with
  | some x, some y => decide (x ≤ y)
  | _, _ => false

/-! ## Filtering -/

/-- The values of the three filter controls read by `applyFilters`
(`categoryFilter.value`, `fromDate.value`, `toDate.value`); the empty string is an unset
control. -/
structure FilterInputs where
  categoryFilter : String
  fromDate : String
  toDate : String
deriving DecidableEq

/-- The function `applyFilters(list, filter)`. Its second argument is never read by the script, so it
is not a parameter here; the criteria come from the controls. -/
def applyFilters (legacy : String → Option Int) (ui : FilterInputs)
    (list : List Expense) : List Expense :=
  let out := list
  let cat := ui.categoryFilter
  let out := if cat ≠ "" ∧ cat ≠ "all" then out.filter (fun i => i.category = cat) else out
  let out :=
    if ui.fromDate ≠ "" then
      out.filter (fun i => dateGe (dateTime legacy i.date) (dateTime legacy ui.fromDate))
    else out
  let out :=
    if ui.toDate ≠ "" then
      out.filter (fun i => dateLe (dateTime legacy i.date) (dateTime legacy ui.toDate))
    else out
  out

/-! ### Reference notions for the filter -/

/-- Chronological order on calendar days: year, then month, then day. -/
def calLe (a b : Nat × Nat × Nat) : Bool :=
  decide (a.1 < b.1) ||
    (decide (a.1 = b.1) && (decide (a.2.1 < b.2.1) ||
      (decide (a.2.1 = b.2.1) && decide (a.2.2 ≤ b.2.2))))

/-- The string is a well-formed `YYYY-MM-DD` date. -/
def WellFormedDate (s : String) : Prop :=
  (isoDate s).isSome = true

instance (s : String) : Decidable (WellFormedDate s) := by
  unfold WellFormedDate; infer_instance

/-- Day `s` is on or before day `t`, both read as calendar days. -/
def onOrBefore (s t : String) : Bool :=
  match isoDate s, isoDate t with
  | some a, some b => calLe a b
  | _, _ => false

/-- What the filter is meant to keep: the conjunction of the criteria that are set. -/
def keeps (ui : FilterInputs) (r : Expense) : Bool :=
  (decide (ui.categoryFilter = "") || decide (ui.categoryFilter = "all") ||
      decide (r.category = ui.categoryFilter)) &&
    (decide (ui.fromDate = "") || onOrBefore ui.fromDate r.date) &&
    (decide (ui.toDate = "") || onOrBefore r.date ui.toDate)

/-! ## The displayed list -/

/-- The comparator `(a, b) => new Date(b.date) - new Date(a.date)`; `none` is `NaN`. -/
def compareByDate (legacy : String → Option Int) (a b : Expense) : Option Int :=
  match dateTime legacy b.date, dateTime legacy a.date with
  | some x, some y => some (x - y)
  | _, _ => none

/-- Record `a` may stay in front of record `b`: the comparator does not return a positive number
(`Array.prototype.sort` reads `NaN` as `0`). -/
def staysBefore (legacy : String → Option Int) (a b : Expense) : Bool :=
  match compareByDate legacy a b with
  | some v => decide (v ≤ 0)
  | none => true

/-- The call `list.sort(comparator)`. ECMAScript requires the sort to be stable and, for a consistent
comparator, sorted; such a result is unique, and insertion sort computes it. For an inconsistent
comparator (invalid dates) the order is implementation-defined. -/
def sortByDate (legacy : String → Option Int) (list : List Expense) : List Expense :=
  list.insertionSort (fun a b => staysBefore legacy a b = true)

/-! ## Statistics -/

/-- One reading of the clock: `Date.now()`, the local calendar fields of `new Date()` and the text
`new Date().toISOString().slice(0, 10)`. `now` is a time value, so `now - 30 days` is a valid
date. -/
structure Clock where
  now : Int
  fullYear : Nat
  month : Nat
  today : String

/-- The call `text.padStart(2, "0")` on the decimal text of a month number. -/
def padStart2 (s : String) : String :=
  if s.length < 2 then "0" ++ s else s

/-- The `YYYY-MM` text of the current month, built from the local calendar fields. -/
def currentMonth (clock : Clock) : String :=
  toString clock.fullYear ++ "-" ++ padStart2 (toString (clock.month + 1))

/-- The call `text.startsWith(prefix)`. -/
def startsWith (text pre : String) : Bool :=
  pre.data.isPrefixOf text.data

/-- The fold `reduce((s, e) => s + Number(e.amount), 0)`. -/
def sumAmounts (list : List Expense) : JSNum :=
  list.foldl (fun s e => s + e.amount) 0

/-- Sum of the amounts of the current month. -/
def monthSum (clock : Clock) (expenses : List Expense) : JSNum :=
  sumAmounts (expenses.filter (fun e => startsWith e.date (currentMonth clock)))

/-- The records of the last thirty days: `new Date(e.date) >= new Date(Date.now() - 30 days)`. -/
def last30 (legacy : String → Option Int) (clock : Clock) (expenses : List Expense) :
    List Expense :=
  expenses.filter (fun e =>
    dateGe (dateTime legacy e.date) (some (clock.now - 1000 * 60 * 60 * 24 * 30)))

/-- Average per day over the last thirty days. -/
def avg (legacy : String → Option Int) (clock : Clock) (expenses : List Expense) : JSNum :=
  if (last30 legacy clock expenses).length ≠ 0 then
    JSNum.round (JSNum.divBy (sumAmounts (last30 legacy clock expenses)) 30)
  else 0

/-- The value of a property of `monthlyMap`: a Number, or the text that `+` produces once the
left operand is the function inherited from `Object.prototype`. -/
inductive Slot where
  | num (n : JSNum)
  | text
deriving DecidableEq

/-- The object `monthlyMap`, as its own properties in the order they were created. Only sorted keys
are ever read from it, so the enumeration order of `Object.keys` plays no role. -/
abbrev MonthlyMap := List (String × Slot)

/-- The key `e.date.slice(0, 7)`. -/
def monthKey (e : Expense) : String :=
  String.mk (e.date.data.take 7)

/-- Property names that a fresh object inherits and that are at most seven characters long, the
only ones a month key can hit: reading such a key before it is set yields a function. -/
def inheritedKey (k : String) : Bool :=
  decide (k = "valueOf")

/-- Own property lookup. -/
def ownProp (m : MonthlyMap) (k : String) : Option Slot :=
  match m with
  | [] => none
  | (k2, v) :: rest => if k2 = k then some v else ownProp rest k

/-- Assignment `m[k] = v`: overwrite in place, or create the property at the end. -/
def setProp (m : MonthlyMap) (k : String) (v : Slot) : MonthlyMap :=
  match m with
  | [] => [(k, v)]
  | (k2, v2) :: rest => if k2 = k then (k2, v) :: rest else (k2, v2) :: setProp rest k v

/-- The expression `(monthlyMap[key] || 0) + Number(e.amount)`. -/
def bumped (m : MonthlyMap) (key : String) (amount : JSNum) : Slot :=
  match ownProp m key with
  | some (Slot.num n) => Slot.num ((if n.truthy then n else 0) + amount)
  | some Slot.text => Slot.text
  | none => if inheritedKey key then Slot.text else Slot.num (0 + amount)

/-- One step of the `forEach` that fills `monthlyMap`. -/
def addToMonth (m : MonthlyMap) (e : Expense) : MonthlyMap :=
  setProp m (monthKey e) (bumped m (monthKey e) e.amount)

/-- The month to total map built by `render`. -/
def monthlyMap (expenses : List Expense) : MonthlyMap :=
  expenses.foldl addToMonth []

/-- Order of the default `sort()` on strings: lexicographic on character codes. -/
def lexLe : List Char → List Char → Bool
  | [], _ => true
  | _ :: _, [] => false
  | a :: as, b :: bs => decide (a.toNat < b.toNat) || (decide (a.toNat = b.toNat) && lexLe as bs)

/-- The call `keys.sort()`. -/
def sortKeys (keys : List String) : List String :=
  keys.insertionSort (fun a b => lexLe a.data b.data = true)

/-- The array `Object.keys(monthlyMap).sort()`. -/
def months (m : MonthlyMap) : List String :=
  sortKeys (m.map Prod.fst)

/-- The call `array.slice(-3)`. -/
def sliceLast3 {α : Type} (l : List α) : List α :=
  l.drop (l.length - 3)

/-- The expression `monthlyMap[m] || 0` for a key `m` of the map. -/
def slotOrZero (m : MonthlyMap) (k : String) : Slot :=
  match ownProp m k with
  | some (Slot.num n) => Slot.num (if n.truthy then n else 0)
  | some Slot.text => Slot.text
  | none => if inheritedKey k then Slot.text else Slot.num 0

/-- The operator `+` in `reduce((s, v) => s + v, 0)`: text is contagious. -/
def Slot.add : Slot → Slot → Slot
  | Slot.num a, Slot.num b => Slot.num (a + b)
  | _, _ => Slot.text

/-- ToNumber of a slot; the text holds the source of a function and so reads as `NaN`. -/
def Slot.toNum : Slot → JSNum
  | Slot.num n => n
  | Slot.text => JSNum.nan

/-- The array `last3`. -/
def last3 (m : MonthlyMap) : List Slot :=
  (sliceLast3 (months m)).map (slotOrZero m)

/-- The forecast `pred`. -/
def pred (m : MonthlyMap) : JSNum :=
  if (last3 m).length ≠ 0 then
    JSNum.round (JSNum.divBy ((last3 m).foldl Slot.add (Slot.num 0)).toNum (last3 m).length)
  else 0

/-- What one call of `render` leaves behind: the array `expenses`, the list put on screen and the
five statistics. -/
structure Rendered where
  expenses : List Expense
  list : List Expense
  monthSum : JSNum
  count : Nat
  avg : JSNum
  monthlyMap : MonthlyMap
  pred : JSNum

/-- The function `render`. The filter and the sort work on a copy (`[...list]`), so `expenses` is
handed back as it came. -/
def render (legacy : String → Option Int) (clock : Clock) (ui : FilterInputs)
    (expenses : List Expense) : Rendered :=
  { expenses := expenses
    list := sortByDate legacy (applyFilters legacy ui expenses)
    monthSum := monthSum clock expenses
    count := expenses.length
    avg := avg legacy clock expenses
    monthlyMap := monthlyMap expenses
    pred := pred (monthlyMap expenses) }

/-! ### Reference notions for the statistics -/

/-- Sum of the amounts of the records of month `k`. -/
def monthTotal (expenses : List Expense) (k : String) : JSNum :=
  ((expenses.filter (fun e => monthKey e = k)).map (fun e => e.amount)).sum

/-- The distinct month keys of the records, in ascending order. -/
def sortedMonths (expenses : List Expense) : List String :=
  sortKeys (expenses.map monthKey).dedup

/-- The forecast as the specification words it: the rounded mean of the totals of the last
`min 3 k` months. -/
def forecastSpec (expenses : List Expense) : JSNum :=
  let ks := sortedMonths expenses
  let n := min 3 ks.length
  if ks.length = 0 then 0
  else JSNum.round (JSNum.divBy (((ks.drop (ks.length - n)).map (monthTotal expenses)).sum) n)

/-- The record's date is on or after `now` minus thirty days. -/
def inLast30 (legacy : String → Option Int) (clock : Clock) (e : Expense) : Prop :=
  ∃ t, dateTime legacy e.date = some t ∧ clock.now - 30 * (24 * 3600000) ≤ t

instance (legacy : String → Option Int) (clock : Clock) (e : Expense) :
    Decidable (inLast30 legacy clock e) :=
  match h : dateTime legacy e.date with
  | some t =>
    if h2 : clock.now - 30 * (24 * 3600000) ≤ t then isTrue ⟨t, h, h2⟩
    else isFalse (fun ⟨t2, e2, h3⟩ => h2 (by rw [h] at e2; cases e2; exact h3))
  | none => isFalse (fun ⟨t2, e2, _⟩ => by rw [h] at e2; cases e2)

/-- The rolling average as the specification words it. -/
def rollingAverageSpec (legacy : String → Option Int) (clock : Clock)
    (expenses : List Expense) : JSNum :=
  JSNum.round (JSNum.divBy
    ((expenses.filter (fun e => decide (inLast30 legacy clock e))).map (fun e => e.amount)).sum 30)

/-! ## Saving a new expense -/

/-- The values of the four inputs of the modal; the empty string is an empty input. -/
structure Form where
  desc : String
  amount : String
  category : String
  date : String

/-- The mutable state the handlers work on: the array and the stored text under `STORAGE_KEY`
(`none` when the key is absent). -/
structure App where
  expenses : List Expense
  storage : Option String
deriving DecidableEq

/-- The expression `text || fallback` on strings. -/
def orElse (text fallback : String) : String :=
  if text = "" then fallback else text

/-- The number `a` read from the form: `Number(value || 0)`. -/
def formAmount (toNumber : String → JSNum) (form : Form) : JSNum :=
  if form.amount = "" then 0 else toNumber form.amount

/-- The validation `!a || a <= 0`. -/
def rejected (a : JSNum) : Bool :=
  !a.truthy || a.leZero

/-- The click handler of `saveModal`. The result is the new state and whether the alert was
shown. -/
def saveModal (toNumber : String → JSNum) (stringify : List Expense → String) (clock : Clock)
    (form : Form) (app : App) : App × Bool :=
  let d := orElse form.desc "Untitled"
  let a := formAmount toNumber form
  let c := orElse form.category "Other"
  let dt := orElse form.date clock.today
  if rejected a then (app, true)
  else
    let item : Expense := { id := clock.now, desc := d, amount := a, category := c, date := dt }
    let expenses := app.expenses ++ [item]
    ({ expenses := expenses, storage := some (stringify expenses) }, false)

/-! ## CSV export and import -/

/-- The call `rows.join(sep)`. -/
def join (rows : List String) (sep : String) : String :=
  String.mk (List.intercalate sep.data (rows.map String.data))

/-- The row template of the export: id, quoted description, amount, category, date, with commas
in between. -/
def exportRow (numToString : JSNum → String) (e : Expense) : String :=
  numToString (JSNum.num e.id) ++ ",\"" ++ e.desc ++ "\"," ++ numToString e.amount ++ "," ++
    e.category ++ "," ++ e.date

/-- The text handed to the download by the export handler; `none` when the handler alerts
`No data to export` instead. -/
def exportCsv (numToString : JSNum → String) (expenses : List Expense) : Option String :=
  if expenses.length = 0 then none
  else some (join ("id,desc,amount,category,date" :: expenses.map (exportRow numToString)) "\n")

/-- The call `text.split(sep)` for a one-character separator. -/
def split (text : String) (sep : Char) : List String :=
  (text.data.splitOn sep).map String.mk

/-- The call `text.replace(/"/g, "")`. -/
def stripQuotes (text : String) : String :=
  String.mk (text.data.filter (fun c => c ≠ '"'))

/-- The object built from one line. A line with fewer than five columns gives an object whose
`category` or `date` is `undefined`; no `Expense` stands for it and the result is `none`. -/
def importLine (toNumber : String → JSNum) (id : ℚ) (line : String) : Option Expense :=
  match split line ',' with
  | _ :: c1 :: c2 :: c3 :: c4 :: _ =>
    some { id := id, desc := stripQuotes c1, amount := toNumber c2, category := c3, date := c4 }
  | _ => none

/-- The lines `reader.result.split("\n").slice(1).filter(Boolean)`. -/
def dataLines (text : String) : List String :=
  ((split text '\n').drop 1).filter (fun l => l ≠ "")

/-- The objects pushed by the `forEach` of the import; `ids k` is the value of
`Date.now() + Math.random()` at line `k`. -/
def importItems (toNumber : String → JSNum) (ids : Nat → ℚ) (k : Nat) :
    List String → Option (List Expense)
  | [] => some []
  | line :: rest =>
    match importLine toNumber (ids k) line, importItems toNumber ids (k + 1) rest with
    | some e, some es => some (e :: es)
    | _, _ => none

/-- The `onload` handler of the import: every data line is pushed, then the array is stored.
The result is `none` only when a line has fewer than five columns (see `importLine`). -/
def importOnload (toNumber : String → JSNum) (stringify : List Expense → String)
    (ids : Nat → ℚ) (text : String) (app : App) : Option App :=
  match importItems toNumber ids 0 (dataLines text) with
  | some items =>
    let expenses := app.expenses ++ items
    some { expenses := expenses, storage := some (stringify expenses) }
  | none => none

/-- The records `rs` as they come back from an import that starts at line `k`: same fields, new
ids. -/
def withIds (ids : Nat → ℚ) (k : Nat) : List Expense → List Expense
  | [] => []
  | r :: rs => { r with id := ids k } :: withIds ids (k + 1) rs

/-- The text has none of the characters the CSV layout uses: comma, double quote, line feed. -/
def csvSafe (text : String) : Prop :=
  ',' ∉ text.data ∧ '"' ∉ text.data ∧ '\n' ∉ text.data

instance (text : String) : Decidable (csvSafe text) := by
  unfold csvSafe; infer_instance

/-- The text of a number as the export needs it: free of comma and line feed. -/
def plainText (text : String) : Prop :=
  ',' ∉ text.data ∧ '\n' ∉ text.data

instance (text : String) : Decidable (plainText text) := by
  unfold plainText; infer_instance

/-- Same description, amount, category and date (the ids may differ). -/
def sameFields (a b : Expense) : Prop :=
  a.desc = b.desc ∧ a.amount = b.amount ∧ a.category = b.category ∧ a.date = b.date

/-! ## Loading -/

/-- The initialiser `JSON.parse(localStorage.getItem(STORAGE_KEY) || "[]")`. `jsonParse` returns
`none` where `JSON.parse` throws a `SyntaxError`; nothing catches it, so `none` here is a script
that stops at its first statement. -/
def loadExpenses (jsonParse : String → Option (List Expense)) (stored : Option String) :
    Option (List Expense) :=
  match stored with
  | none => jsonParse "[]"
  | some text => jsonParse (if text = "" then "[]" else text)

/-! ### Reference notions for the sort -/

/-- The time value of a record with a well-formed date (`0` for any other text). -/
def sortKey (e : Expense) : Int :=
  match isoDate e.date with
  | some t => utcMs t
  | none => 0

/-! ## Sample data -/

/-- The three records of the specification's scenarios. -/
def scenario : List Expense :=
  [ { id := 1, desc := "a", amount := JSNum.num 100, category := "Food", date := "2024-01-05" },
    { id := 2, desc := "b", amount := JSNum.num 50, category := "Food", date := "2024-02-10" },
    { id := 3, desc := "c", amount := JSNum.num 200, category := "Travel", date := "2024-02-15" } ]

/-- A `Date.parse` fallback that rejects everything. -/
def noLegacy : String → Option Int := fun _ => none

/-- The conversion `Number(text)` on the texts used in the examples; any other text reads as `NaN` here. -/
def sampleNumber (text : String) : JSNum :=
  if text = "50" then JSNum.num 50
  else if text = "100" then JSNum.num 100
  else if text = "200" then JSNum.num 200
  else if text = "12.5" then JSNum.num (25 / 2)
  else JSNum.nan

/-- Number to text on the values used in the examples. -/
def sampleText (x : JSNum) : String :=
  if x = JSNum.num 50 then "50"
  else if x = JSNum.num 100 then "100"
  else if x = JSNum.num 1 then "1"
  else if x = JSNum.num 2 then "2"
  else if x = JSNum.num 3 then "3"
  else if x = JSNum.num 200 then "200"
  else "NaN"

/-! # Theorems -/

/-! ## Calendar arithmetic -/

theorem dayFromYear_succ (y : Nat) :
    dayFromYear ((y : Int) + 1) = dayFromYear y + (if isLeap y then 366 else 365) := by
  unfold dayFromYear isLeap
  by_cases h4 : y % 4 = 0 <;> by_cases h100 : y % 100 = 0 <;> by_cases h400 : y % 400 = 0 <;>
    simp [h4, h100, h400] <;> omega

/-- Every later year starts after the whole of an earlier year has passed. -/
theorem dayFromYear_lt (y k : Nat) :
    dayFromYear y + (if isLeap y then 366 else 365) ≤ dayFromYear ((y + 1 + k : Nat) : Int) := by
  induction k with
  | zero =>
    have h := dayFromYear_succ y
    simp only [Nat.add_zero, Nat.cast_add, Nat.cast_one]
    omega
  | succ k ih =>
    have h := dayFromYear_succ (y + 1 + k)
    have e : ((y + 1 + (k + 1) : Nat) : Int) = ((y + 1 + k : Nat) : Int) + 1 := by push_cast; ring
    rw [e, h]
    split <;> omega

/-- The day of the year of a calendar day lies inside its year. -/
theorem dayOfYear_lt (t : Nat × Nat × Nat) (h : validYMD t = true) :
    daysBeforeMonth (isLeap t.1) t.2.1 + t.2.2 ≤ (if isLeap t.1 then 366 else 365) := by
  obtain ⟨y, m, d⟩ := t
  simp only [validYMD, Bool.and_eq_true, decide_eq_true_eq] at h
  obtain ⟨⟨⟨h1, h2⟩, h3⟩, h4⟩ := h
  simp only at h1 h2 h3 h4 ⊢
  interval_cases m <;> cases hl : isLeap y <;>
    simp [daysInMonth, daysBeforeMonth, hl] at h4 ⊢ <;> omega

/-- Within one year, an earlier month ends before a later month starts. -/
theorem daysBeforeMonth_lt (y m m2 : Nat) (h1 : 1 ≤ m) (h : m < m2) (h2 : m2 ≤ 12) :
    daysBeforeMonth (isLeap y) m + daysInMonth y m ≤ daysBeforeMonth (isLeap y) m2 := by
  interval_cases m2 <;> interval_cases m <;> cases hl : isLeap y <;>
    simp [daysInMonth, daysBeforeMonth, hl]

/-- The day number is strictly increasing along the calendar order. -/
theorem dayNumber_lt (a b : Nat × Nat × Nat) (ha : validYMD a = true) (hb : validYMD b = true)
    (h : calLe b a = false) : dayNumber a < dayNumber b := by
  have hda := dayOfYear_lt a ha
  obtain ⟨y, m, d⟩ := a
  obtain ⟨y2, m2, d2⟩ := b
  simp only [validYMD, Bool.and_eq_true, decide_eq_true_eq] at ha hb
  obtain ⟨⟨⟨a1, a2⟩, a3⟩, a4⟩ := ha
  obtain ⟨⟨⟨b1, b2⟩, b3⟩, b4⟩ := hb
  simp only [calLe, Bool.or_eq_false_iff, Bool.and_eq_false_imp, decide_eq_false_iff_not,
    decide_eq_true_eq, not_lt, not_le] at h
  simp only at a1 a2 a3 a4 b1 b2 b3 b4 h hda
  obtain ⟨hy, hrest⟩ := h
  unfold dayNumber
  simp only
  rcases Nat.lt_or_eq_of_le hy with hlt | heq
  · obtain ⟨k, rfl⟩ : ∃ k, y2 = y + 1 + k := ⟨y2 - (y + 1), by omega⟩
    have := dayFromYear_lt y k
    split at this <;> split at hda <;> simp_all <;> omega
  · subst heq
    obtain ⟨hm, hd⟩ := hrest rfl
    rcases Nat.lt_or_eq_of_le hm with hlt | heq
    · have := daysBeforeMonth_lt y m m2 a1 hlt b2
      omega
    · subst heq
      have := hd rfl
      omega

theorem calLe_total (a b : Nat × Nat × Nat) (h : calLe a b = false) : calLe b a = true := by
  simp only [calLe, Bool.or_eq_false_iff, Bool.and_eq_false_imp, decide_eq_false_iff_not,
    decide_eq_true_eq, not_lt, not_le] at h
  simp only [calLe, Bool.or_eq_true, Bool.and_eq_true, decide_eq_true_eq]
  obtain ⟨h1, h2⟩ := h
  rcases Nat.lt_or_eq_of_le h1 with hlt | heq
  · exact Or.inl hlt
  · right
    refine ⟨heq, ?_⟩
    obtain ⟨h3, h4⟩ := h2 heq.symm
    rcases Nat.lt_or_eq_of_le h3 with hlt | heq2
    · exact Or.inl hlt
    · exact Or.inr ⟨heq2, (h4 heq2.symm).le⟩

theorem calLe_antisymm (a b : Nat × Nat × Nat) (h : calLe a b = true) (h2 : calLe b a = true) :
    a = b := by
  obtain ⟨y, m, d⟩ := a
  obtain ⟨y2, m2, d2⟩ := b
  simp only [calLe, Bool.or_eq_true, Bool.and_eq_true, decide_eq_true_eq] at h h2
  simp only [Prod.mk.injEq]
  omega

/-- On calendar days, comparing day numbers is comparing in calendar order. -/
theorem dayNumber_le_iff (a b : Nat × Nat × Nat) (ha : validYMD a = true)
    (hb : validYMD b = true) : dayNumber a ≤ dayNumber b ↔ calLe a b = true := by
  constructor
  · intro h
    by_contra hc
    have := dayNumber_lt b a hb ha (by simpa using hc)
    omega
  · intro h
    cases hba : calLe b a
    · exact (dayNumber_lt a b ha hb hba).le
    · rw [calLe_antisymm a b h hba]

theorem utcMs_le_iff (a b : Nat × Nat × Nat) (ha : validYMD a = true)
    (hb : validYMD b = true) : utcMs a ≤ utcMs b ↔ calLe a b = true := by
  rw [← dayNumber_le_iff a b ha hb]
  unfold utcMs msPerDay
  omega

/-! ## The filter -/

/-- On well-formed dates the comparison of `Date` objects is the calendar comparison. -/
theorem dateLe_dateTime (legacy : String → Option Int) (s t : String)
    (hs : WellFormedDate s) (ht : WellFormedDate t) :
    dateLe (dateTime legacy s) (dateTime legacy t) = onOrBefore s t := by
  unfold WellFormedDate at hs ht
  obtain ⟨a, ha⟩ := Option.isSome_iff_exists.mp hs
  obtain ⟨b, hb⟩ := Option.isSome_iff_exists.mp ht
  have va : validYMD a = true := by
    unfold isoDate at ha
    split at ha
    · split at ha
      · cases ha; assumption
      · cases ha
    · cases ha
  have vb : validYMD b = true := by
    unfold isoDate at hb
    split at hb
    · split at hb
      · cases hb; assumption
      · cases hb
    · cases hb
  simp only [dateTime, ha, hb, dateLe, onOrBefore]
  rw [Bool.eq_iff_iff, decide_eq_true_eq]
  exact utcMs_le_iff a b va vb

theorem dateGe_eq_dateLe (a b : Option Int) : dateGe a b = dateLe b a := by
  cases a <;> cases b <;> rfl

/-- The three conditional passes of `applyFilters` as one pass. -/
theorem applyFilters_eq_filter (legacy : String → Option Int) (ui : FilterInputs)
    (list : List Expense) :
    applyFilters legacy ui list = list.filter (fun i =>
      (decide (ui.categoryFilter = "") || decide (ui.categoryFilter = "all") ||
          decide (i.category = ui.categoryFilter)) &&
        (decide (ui.fromDate = "") ||
          dateGe (dateTime legacy i.date) (dateTime legacy ui.fromDate)) &&
        (decide (ui.toDate = "") ||
          dateLe (dateTime legacy i.date) (dateTime legacy ui.toDate))) := by
  unfold applyFilters
  by_cases h1 : ui.fromDate = "" <;> by_cases h2 : ui.toDate = "" <;>
    by_cases hc1 : ui.categoryFilter = "" <;> by_cases hc2 : ui.categoryFilter = "all" <;>
    simp [h1, h2, hc1, hc2, List.filter_filter, Bool.and_comm, Bool.and_left_comm]

/-- Claim C1. On records with well-formed `YYYY-MM-DD` dates, and filter dates that are unset or
well-formed, `applyFilters` returns exactly the records that satisfy every criterion that is set
(exact category match unless the category is unset or `all`; date on or after the from-date; date
on or before the to-date), in their original order; with no criterion set it returns the input. -/
theorem applyFilters_spec (legacy : String → Option Int) (ui : FilterInputs)
    (list : List Expense) (hl : ∀ r ∈ list, WellFormedDate r.date)
    (hf : ui.fromDate = "" ∨ WellFormedDate ui.fromDate)
    (ht : ui.toDate = "" ∨ WellFormedDate ui.toDate) :
    applyFilters legacy ui list = list.filter (keeps ui) ∧
      ((ui.categoryFilter = "" ∨ ui.categoryFilter = "all") → ui.fromDate = "" →
        ui.toDate = "" → applyFilters legacy ui list = list) := by
  constructor
  · rw [applyFilters_eq_filter]
    apply List.filter_congr
    intro r hr
    have hw := hl r hr
    have e1 : (decide (ui.fromDate = "") ||
        dateGe (dateTime legacy r.date) (dateTime legacy ui.fromDate)) =
        (decide (ui.fromDate = "") || onOrBefore ui.fromDate r.date) := by
      rcases hf with h | h
      · simp [h]
      · rw [dateGe_eq_dateLe, dateLe_dateTime legacy _ _ h hw]
    have e2 : (decide (ui.toDate = "") ||
        dateLe (dateTime legacy r.date) (dateTime legacy ui.toDate)) =
        (decide (ui.toDate = "") || onOrBefore r.date ui.toDate) := by
      rcases ht with h | h
      · simp [h]
      · rw [dateLe_dateTime legacy _ _ hw h]
    unfold keeps
    rw [e1, e2]
  · intro hc h1 h2
    unfold applyFilters
    rcases hc with hc | hc <;> simp [hc, h1, h2]

/-! ## Number lemmas -/

theorem jsnum_zero_def : (0 : JSNum) = JSNum.num 0 := rfl

theorem jsnum_add_def (a b : JSNum) : a + b = JSNum.add a b := rfl

theorem jsnum_zero_add (a : JSNum) : 0 + a = a := by
  cases a <;> simp [jsnum_zero_def, jsnum_add_def, JSNum.add]

theorem jsnum_add_zero (a : JSNum) : a + 0 = a := by
  cases a <;> simp [jsnum_zero_def, jsnum_add_def, JSNum.add]

theorem jsnum_add_assoc (a b c : JSNum) : a + b + c = a + (b + c) := by
  cases a <;> cases b <;> cases c <;> simp [jsnum_add_def, JSNum.add, add_assoc]

theorem foldl_add_eq_sum (a : JSNum) (l : List JSNum) :
    l.foldl (fun s x => s + x) a = a + l.sum := by
  induction l generalizing a with
  | nil => simp [jsnum_add_zero]
  | cons x xs ih => simp [List.foldl_cons, List.sum_cons, ih, jsnum_add_assoc]

/-- The `reduce` over the amounts is their sum. -/
theorem sumAmounts_eq_sum (l : List Expense) :
    sumAmounts l = (l.map (fun e => e.amount)).sum := by
  unfold sumAmounts
  rw [← List.foldl_map (fun e : Expense => e.amount) (fun s x => s + x), foldl_add_eq_sum,
    jsnum_zero_add]

theorem round_zero_div : JSNum.round (JSNum.divBy (0 : JSNum) 30) = 0 := by
  simp only [jsnum_zero_def, JSNum.divBy, JSNum.round]
  norm_num

/-! ## The rolling average -/

theorem dateGe_iff_inLast30 (legacy : String → Option Int) (clock : Clock) (e : Expense) :
    dateGe (dateTime legacy e.date) (some (clock.now - 1000 * 60 * 60 * 24 * 30)) =
      decide (inLast30 legacy clock e) := by
  rw [Bool.eq_iff_iff, decide_eq_true_eq]
  unfold inLast30
  cases h : dateTime legacy e.date with
  | none => simp [dateGe]
  | some t =>
    simp only [dateGe, decide_eq_true_eq, Option.some.injEq, exists_eq_left']
    constructor <;> intro h2 <;> omega

/-- Claim C7. The save handler rejects the form, leaving the array and the stored text as they
were, exactly when the amount is missing, not a number, zero or negative. Otherwise the array grows
by one record at its end, carrying the submitted amount (which is positive), the description or
`Untitled`, the category or `Other`, and the new array is what is stored. -/
theorem saveModal_spec (toNumber : String → JSNum) (stringify : List Expense → String)
    (clock : Clock) (form : Form) (app : App) :
    ((saveModal toNumber stringify clock form app).2 = true ↔
        (form.amount = "" ∨ toNumber form.amount = JSNum.nan ∨
          ∃ q, toNumber form.amount = JSNum.num q ∧ q ≤ 0)) ∧
      ((saveModal toNumber stringify clock form app).2 = true →
        (saveModal toNumber stringify clock form app).1 = app) ∧
      ((saveModal toNumber stringify clock form app).2 = false →
        ∃ item : Expense,
          (saveModal toNumber stringify clock form app).1.expenses = app.expenses ++ [item] ∧
          (saveModal toNumber stringify clock form app).1.storage =
            some (stringify (app.expenses ++ [item])) ∧
          item.amount = toNumber form.amount ∧ item.amount.isPos = true ∧
          item.desc = (if form.desc = "" then "Untitled" else form.desc) ∧
          item.category = (if form.category = "" then "Other" else form.category)) := by
  have key : rejected (formAmount toNumber form) = true ↔
      (form.amount = "" ∨ toNumber form.amount = JSNum.nan ∨
        ∃ q, toNumber form.amount = JSNum.num q ∧ q ≤ 0) := by
    unfold rejected formAmount
    by_cases h : form.amount = ""
    · simp [h, jsnum_zero_def, JSNum.truthy]
    · cases hn : toNumber form.amount with
      | nan => simp [h, JSNum.truthy]
      | num q =>
        simp only [h, if_false, JSNum.truthy, JSNum.leZero, Bool.or_eq_true,
          Bool.not_eq_true', decide_eq_false_iff_not, decide_eq_true_eq, false_or,
          JSNum.num.injEq, exists_eq_left', not_not, reduceCtorEq]
        constructor
        · rintro (h0 | h0)
          · exact h0.le
          · exact h0
        · intro h0; exact Or.inr h0
  refine ⟨?_, ?_, ?_⟩
  · rw [← key]
    unfold saveModal
    simp only
    split <;> simp_all
  · unfold saveModal
    simp only
    split <;> simp_all
  · unfold saveModal
    simp only
    split
    · simp
    · rename_i hr
      intro _
      refine ⟨_, rfl, rfl, ?_, ?_, rfl, rfl⟩
      · have hne : ¬ form.amount = "" := fun h => hr (key.mpr (Or.inl h))
        simp [formAmount, hne]
      · have hne : ¬ form.amount = "" := fun h => hr (key.mpr (Or.inl h))
        cases hn : toNumber form.amount with
        | nan => exact absurd (key.mpr (Or.inr (Or.inl hn))) hr
        | num q =>
          have : ¬ q ≤ 0 := fun hq => hr (key.mpr (Or.inr (Or.inr ⟨q, hn, hq⟩)))
          simp only [formAmount, hne, if_false, hn, JSNum.isPos, decide_eq_true_eq]
          exact not_le.mp this

/-! ## Loading -/

/-- Claim C10 as stated fails: a stored text that `JSON.parse` rejects makes the load fail; it
does not yield the empty array. Shown for a parser that accepts the text `[]` only, on the stored
text of one opening brace. -/
theorem loadExpenses_unparsable_fails :
    loadExpenses (fun s => if s = "[]" then some [] else none) (some "\x7b") = none := by
  decide

/-- Claim C10, amended. With a `JSON.parse` that reads `[]` as the empty array: an absent or
empty stored text loads as the empty array; a stored text that parses loads as the parsed records;
a stored text that does not parse makes the load fail. -/
theorem loadExpenses_spec (jsonParse : String → Option (List Expense))
    (h : jsonParse "[]" = some []) (stored : Option String) :
    ((stored = none ∨ stored = some "") → loadExpenses jsonParse stored = some []) ∧
      (∀ text, stored = some text → text ≠ "" →
        loadExpenses jsonParse stored = jsonParse text) := by
  constructor
  · rintro (hs | hs) <;> simp [hs, loadExpenses, h]
  · intro text hs hne
    simp [hs, loadExpenses, hne]

theorem loadExpenses_spec_witness :
    (fun s => if s = "[]" then some ([] : List Expense) else none) "[]" = some [] ∧
      loadExpenses (fun s => if s = "[]" then some [] else none) none = some [] :=
  ⟨by decide, (loadExpenses_spec _ (by decide) none).1 (Or.inl rfl)⟩

/-! ## Import -/

/-- Claim C8 fails on the code. The import pushes one record for every data line and checks
nothing: a line whose amount text is not a number becomes a record with amount `NaN`, next to the
record of the well-formed line, so the array no longer holds positive amounts only. -/
theorem importOnload_keeps_bad_row (toNumber : String → JSNum)
    (stringify : List Expense → String) (ids : Nat → ℚ) (h : toNumber "abc" = JSNum.nan) :
    ∃ app, importOnload toNumber stringify ids
        "id,desc,amount,category,date\n1,\"Lunch\",abc,Food,2024-01-05\n2,\"Bus\",50,Travel,2024-01-06"
        { expenses := [], storage := none } = some app ∧
      app.expenses =
        [ { id := ids 0, desc := "Lunch", amount := JSNum.nan, category := "Food",
            date := "2024-01-05" },
          { id := ids 1, desc := "Bus", amount := toNumber "50", category := "Travel",
            date := "2024-01-06" } ] ∧
      app.expenses.map (fun e => e.amount.isPos) = [false, (toNumber "50").isPos] := by
  refine ⟨_, rfl, ?_, ?_⟩
  · rw [← h]; rfl
  · show [(toNumber "abc").isPos, (toNumber "50").isPos] = _
    rw [h]; rfl

theorem importOnload_keeps_bad_row_witness :
    ∃ app, importOnload sampleNumber (fun _ => "") (fun k => k)
        "id,desc,amount,category,date\n1,\"Lunch\",abc,Food,2024-01-05\n2,\"Bus\",50,Travel,2024-01-06"
        { expenses := [], storage := none } = some app ∧
      app.expenses =
        [ { id := 0, desc := "Lunch", amount := JSNum.nan, category := "Food",
            date := "2024-01-05" },
          { id := 1, desc := "Bus", amount := JSNum.num 50, category := "Travel",
            date := "2024-01-06" } ] ∧
      app.expenses.map (fun e => e.amount.isPos) = [false, true] := by
  simpa [sampleNumber, JSNum.isPos] using
    importOnload_keeps_bad_row sampleNumber (fun _ => "") (fun k => k) (by decide)

/-! ## The displayed list -/

theorem isoDate_valid (s : String) (t : Nat × Nat × Nat) (h : isoDate s = some t) :
    validYMD t = true := by
  unfold isoDate at h
  split at h
  · split at h
    · cases h; assumption
    · cases h
  · cases h

/-- On well-formed dates the comparator orders by time value. -/
theorem staysBefore_iff (legacy : String → Option Int) (a b : Expense)
    (ha : WellFormedDate a.date) (hb : WellFormedDate b.date) :
    staysBefore legacy a b = true ↔ sortKey b ≤ sortKey a := by
  unfold WellFormedDate at ha hb
  obtain ⟨x, hx⟩ := Option.isSome_iff_exists.mp ha
  obtain ⟨y, hy⟩ := Option.isSome_iff_exists.mp hb
  simp only [staysBefore, compareByDate, dateTime, hx, hy, sortKey, decide_eq_true_eq]
  omega

theorem orderedInsert_congr {α : Type} (r s : α → α → Prop) [DecidableRel r] [DecidableRel s]
    (a : α) (l : List α) (h : ∀ b ∈ l, r a b ↔ s a b) :
    l.orderedInsert r a = l.orderedInsert s a := by
  induction l with
  | nil => rfl
  | cons b l ih =>
    have hb := h b (List.mem_cons_self _ _)
    have ih2 := ih (fun c hc => h c (List.mem_cons_of_mem _ hc))
    by_cases hr : r a b
    · simp [List.orderedInsert, hr, hb.mp hr]
    · have hs : ¬ s a b := fun x => hr (hb.mpr x)
      simp [List.orderedInsert, hr, hs, ih2]

theorem insertionSort_congr {α : Type} (r s : α → α → Prop) [DecidableRel r] [DecidableRel s]
    (l : List α) (h : ∀ a ∈ l, ∀ b ∈ l, r a b ↔ s a b) :
    l.insertionSort r = l.insertionSort s := by
  induction l with
  | nil => rfl
  | cons a l ih =>
    have ih2 := ih (fun x hx y hy => h x (List.mem_cons_of_mem _ hx) y (List.mem_cons_of_mem _ hy))
    simp only [List.insertionSort]
    rw [ih2]
    apply orderedInsert_congr
    intro b hb
    have hb2 : b ∈ l := (List.perm_insertionSort s l).subset hb
    exact h a (List.mem_cons_self _ _) b (List.mem_cons_of_mem _ hb2)

/-- A stable sort leaves each group of equal keys in its original order. -/
theorem insertionSort_filter_eq {α : Type} (r : α → α → Prop) [DecidableRel r] (p : α → Bool)
    (l : List α) (h : ∀ a ∈ l, ∀ b ∈ l, p a = true → p b = true → r a b) :
    (l.insertionSort r).filter p = l.filter p := by
  have hs : (l.filter p).Sublist (l.insertionSort r) := by
    apply List.sublist_insertionSort
    · rw [List.pairwise_iff_forall_sublist]
      intro a b hab
      have ha : a ∈ l.filter p := hab.subset (by simp)
      have hb : b ∈ l.filter p := hab.subset (by simp)
      rw [List.mem_filter] at ha hb
      exact h a ha.1 b hb.1 ha.2 hb.2
    · exact List.filter_sublist l
  have hs2 : (l.filter p).Sublist ((l.insertionSort r).filter p) := by
    have := hs.filter p
    rwa [List.filter_filter, show (fun a => p a && p a) = p from by funext a; simp] at this
  have hlen : ((l.insertionSort r).filter p).length = (l.filter p).length :=
    ((List.perm_insertionSort r l).filter p).length_eq
  exact (hs2.eq_of_length hlen.symm).symm

/-- Claim C5. On records with well-formed dates, the list that `render` shows is a permutation of
what `applyFilters` returns, its dates never increase from top to bottom, and the records of any
one date appear in the order they have in the array. -/
theorem render_list_sorted_stable (legacy : String → Option Int) (clock : Clock)
    (ui : FilterInputs) (expenses : List Expense)
    (hl : ∀ r ∈ expenses, WellFormedDate r.date) :
    ((render legacy clock ui expenses).list.Perm (applyFilters legacy ui expenses)) ∧
      (render legacy clock ui expenses).list.Pairwise
        (fun a b => onOrBefore b.date a.date = true) ∧
      (∀ d, (render legacy clock ui expenses).list.filter (fun e => decide (e.date = d)) =
        (applyFilters legacy ui expenses).filter (fun e => decide (e.date = d))) ∧
      (∀ d, ((render legacy clock ui expenses).list.filter
        (fun e => decide (e.date = d))).Sublist expenses) := by
  have hsub : (applyFilters legacy ui expenses).Sublist expenses := by
    rw [applyFilters_eq_filter]; exact List.filter_sublist _
  have hw : ∀ r ∈ applyFilters legacy ui expenses, WellFormedDate r.date :=
    fun r hr => hl r (hsub.subset hr)
  have hlist : (render legacy clock ui expenses).list =
      (applyFilters legacy ui expenses).insertionSort (fun a b => sortKey b ≤ sortKey a) := by
    unfold render sortByDate
    simp only
    apply insertionSort_congr
    intro a ha b hb
    exact staysBefore_iff legacy a b (hw a ha) (hw b hb)
  have hperm : (render legacy clock ui expenses).list.Perm (applyFilters legacy ui expenses) := by
    rw [hlist]; exact List.perm_insertionSort _ _
  have hstable : ∀ d, (render legacy clock ui expenses).list.filter
      (fun e => decide (e.date = d)) =
      (applyFilters legacy ui expenses).filter (fun e => decide (e.date = d)) := by
    intro d
    rw [hlist]
    apply insertionSort_filter_eq
    intro a _ b _ ha hb
    simp only [decide_eq_true_eq] at ha hb
    simp [sortKey, ha, hb]
  refine ⟨hperm, ?_, hstable, ?_⟩
  · haveI : IsTotal Expense (fun a b => sortKey b ≤ sortKey a) := ⟨fun a b => le_total _ _⟩
    haveI : IsTrans Expense (fun a b => sortKey b ≤ sortKey a) :=
      ⟨fun a b c h1 h2 => le_trans h2 h1⟩
    have hsorted := List.sorted_insertionSort (fun a b : Expense => sortKey b ≤ sortKey a)
      (applyFilters legacy ui expenses)
    rw [← hlist] at hsorted
    refine List.Pairwise.imp_of_mem ?_ hsorted
    intro a b ha hb hab
    have wa := hw a (hperm.subset ha)
    have wb := hw b (hperm.subset hb)
    unfold WellFormedDate at wa wb
    obtain ⟨x, hx⟩ := Option.isSome_iff_exists.mp wa
    obtain ⟨y, hy⟩ := Option.isSome_iff_exists.mp wb
    simp only [sortKey, hx, hy] at hab
    simp only [onOrBefore, hx, hy]
    exact (utcMs_le_iff y x (isoDate_valid _ _ hy) (isoDate_valid _ _ hx)).mp hab
  · intro d
    rw [hstable d]
    exact (List.filter_sublist _).trans hsub

theorem render_list_sorted_stable_witness :
    (∀ r ∈ scenario, WellFormedDate r.date) ∧
      (render noLegacy ⟨1708387200000, 2024, 1, "2024-02-20"⟩
        ⟨"all", "2024-02-01", "2024-02-28"⟩ scenario).list =
        [ { id := 3, desc := "c", amount := JSNum.num 200, category := "Travel",
            date := "2024-02-15" },
          { id := 2, desc := "b", amount := JSNum.num 50, category := "Food",
            date := "2024-02-10" } ] ∧
      (render noLegacy ⟨1708387200000, 2024, 1, "2024-02-20"⟩
        ⟨"all", "2024-02-01", "2024-02-28"⟩ scenario).list.Pairwise
        (fun a b => onOrBefore b.date a.date = true) :=
  ⟨by decide, by decide!,
    (render_list_sorted_stable noLegacy ⟨1708387200000, 2024, 1, "2024-02-20"⟩
      ⟨"all", "2024-02-01", "2024-02-28"⟩ scenario (by decide)).2.1⟩

/-! ## The month map -/

theorem jsnum_sum_append (l1 l2 : List JSNum) : (l1 ++ l2).sum = l1.sum + l2.sum := by
  induction l1 with
  | nil => simp [jsnum_zero_add]
  | cons a l ih => simp [List.sum_cons, ih, jsnum_add_assoc]

theorem jsnum_sum_ne_nan (l : List JSNum) (h : ∀ x ∈ l, x ≠ JSNum.nan) : l.sum ≠ JSNum.nan := by
  induction l with
  | nil => simp [jsnum_zero_def]
  | cons a l ih =>
    have ha := h a (List.mem_cons_self _ _)
    have hl := ih (fun x hx => h x (List.mem_cons_of_mem _ hx))
    rw [List.sum_cons]
    cases a with
    | nan => exact absurd rfl ha
    | num q =>
      cases hs : l.sum with
      | nan => exact absurd hs hl
      | num t => simp [jsnum_add_def, JSNum.add]

theorem truthy_or_zero (n : JSNum) (h : n ≠ JSNum.nan) : (if n.truthy then n else 0) = n := by
  cases n with
  | nan => exact absurd rfl h
  | num q =>
    by_cases hq : q = 0
    · simp [JSNum.truthy, hq, jsnum_zero_def]
    · simp [JSNum.truthy, hq]

theorem monthTotal_ne_nan (l : List Expense) (k : String)
    (h : ∀ e ∈ l, e.amount ≠ JSNum.nan) : monthTotal l k ≠ JSNum.nan := by
  unfold monthTotal
  apply jsnum_sum_ne_nan
  intro x hx
  rw [List.mem_map] at hx
  obtain ⟨e, he, rfl⟩ := hx
  exact h e (List.mem_of_mem_filter he)

theorem monthTotal_concat (l : List Expense) (e : Expense) (k : String) :
    monthTotal (l ++ [e]) k = monthTotal l k + (if monthKey e = k then e.amount else 0) := by
  unfold monthTotal
  rw [List.filter_append, List.map_append, jsnum_sum_append]
  by_cases h : monthKey e = k
  · simp [h, List.filter_cons, jsnum_add_zero]
  · simp [h, List.filter_cons]

theorem monthTotal_of_not_mem (l : List Expense) (k : String)
    (h : k ∉ l.map monthKey) : monthTotal l k = 0 := by
  unfold monthTotal
  have : l.filter (fun e => decide (monthKey e = k)) = [] := by
    rw [List.filter_eq_nil_iff]
    intro e he
    simp only [decide_eq_true_eq]
    intro hk
    exact h (List.mem_map.mpr ⟨e, he, hk⟩)
  rw [this]; rfl

theorem ownProp_setProp (m : MonthlyMap) (k : String) (v : Slot) (k2 : String) :
    ownProp (setProp m k v) k2 = if k = k2 then some v else ownProp m k2 := by
  induction m with
  | nil => simp [setProp, ownProp]
  | cons p m ih =>
    obtain ⟨k3, v3⟩ := p
    by_cases h3 : k3 = k
    · subst h3
      by_cases h : k3 = k2 <;> simp [setProp, ownProp, h]
    · by_cases h : k = k2
      · subst h
        simp [setProp, ownProp, h3, ih]
      · by_cases h4 : k3 = k2
        · subst h4
          simp [setProp, ownProp, h3, h]
        · simp [setProp, ownProp, h3, h, h4, ih]

theorem keys_setProp (m : MonthlyMap) (k : String) (v : Slot) :
    (setProp m k v).map Prod.fst =
      if k ∈ m.map Prod.fst then m.map Prod.fst else m.map Prod.fst ++ [k] := by
  induction m with
  | nil => simp [setProp]
  | cons p m ih =>
    obtain ⟨k3, v3⟩ := p
    by_cases h3 : k3 = k
    · subst h3
      simp [setProp]
    · have h3b : ¬ k = k3 := fun h => h3 h.symm
      by_cases hm : k ∈ m.map Prod.fst
      · simp only [hm, if_true] at ih
        simp [setProp, h3, h3b, ih, hm]
      · simp only [hm, if_false] at ih
        simp only [List.mem_map, Prod.exists, exists_and_right, exists_eq_right] at hm
        simp [setProp, h3, h3b, ih, hm]

theorem ownProp_isSome_iff (m : MonthlyMap) (k : String) :
    (ownProp m k).isSome = true ↔ k ∈ m.map Prod.fst := by
  induction m with
  | nil => simp [ownProp]
  | cons p m ih =>
    obtain ⟨k3, v3⟩ := p
    by_cases h : k3 = k
    · simp [ownProp, h]
    · have h2 : ¬ k = k3 := fun x => h x.symm
      simp [ownProp, h, h2, ih]

theorem ownProp_of_mem (m : MonthlyMap) (hn : (m.map Prod.fst).Nodup) (k : String) (v : Slot)
    (h : (k, v) ∈ m) : ownProp m k = some v := by
  induction m with
  | nil => cases h
  | cons p m ih =>
    obtain ⟨k3, v3⟩ := p
    simp only [List.map_cons, List.nodup_cons] at hn
    rcases List.mem_cons.mp h with heq | hmem
    · cases heq
      simp [ownProp]
    · have : k3 ≠ k := by
        intro hk
        subst hk
        exact hn.1 (List.mem_map.mpr ⟨(k3, v), hmem, rfl⟩)
      simp [ownProp, this, ih hn.2 hmem]

theorem monthlyMap_concat (l : List Expense) (e : Expense) :
    monthlyMap (l ++ [e]) = addToMonth (monthlyMap l) e := by
  unfold monthlyMap
  rw [List.foldl_concat]

/-- The state of the month map after any number of records without `NaN` amounts and without
inherited keys: distinct keys, one per month seen, each holding the month's sum. -/
theorem monthlyMap_invariant (l : List Expense)
    (hnum : ∀ e ∈ l, e.amount ≠ JSNum.nan)
    (hkey : ∀ e ∈ l, inheritedKey (monthKey e) = false) :
    ((monthlyMap l).map Prod.fst).Nodup ∧
      (∀ k, k ∈ (monthlyMap l).map Prod.fst ↔ k ∈ l.map monthKey) ∧
      (∀ k, k ∈ l.map monthKey → ownProp (monthlyMap l) k = some (Slot.num (monthTotal l k))) := by
  induction l using List.reverseRecOn with
  | nil => simp [monthlyMap]
  | append_singleton l e ih =>
    have hnum2 : ∀ x ∈ l, x.amount ≠ JSNum.nan := fun x hx => hnum x (by simp [hx])
    have hkey2 : ∀ x ∈ l, inheritedKey (monthKey x) = false := fun x hx => hkey x (by simp [hx])
    obtain ⟨ih1, ih2, ih3⟩ := ih hnum2 hkey2
    have he : inheritedKey (monthKey e) = false := hkey e (by simp)
    have hb : bumped (monthlyMap l) (monthKey e) e.amount =
        Slot.num (monthTotal l (monthKey e) + e.amount) := by
      unfold bumped
      by_cases hm : monthKey e ∈ l.map monthKey
      · rw [ih3 _ hm]
        simp only
        rw [truthy_or_zero _ (monthTotal_ne_nan l _ hnum2)]
      · have hnone : ownProp (monthlyMap l) (monthKey e) = none := by
          cases ho : ownProp (monthlyMap l) (monthKey e) with
          | none => rfl
          | some v =>
            have : (ownProp (monthlyMap l) (monthKey e)).isSome = true := by rw [ho]; rfl
            exact absurd ((ih2 _).mp ((ownProp_isSome_iff _ _).mp this)) hm
        rw [hnone]
        simp only [he, Bool.false_eq_true, if_false]
        rw [monthTotal_of_not_mem l _ hm]
    rw [monthlyMap_concat]
    unfold addToMonth
    refine ⟨?_, ?_, ?_⟩
    · rw [keys_setProp]
      split
      · exact ih1
      · rename_i hnot
        rw [List.nodup_append]
        refine ⟨ih1, List.nodup_singleton _, ?_⟩
        intro a ha hb2
        rw [List.mem_singleton] at hb2
        subst hb2
        exact hnot ha
    · intro k
      rw [keys_setProp]
      simp only [List.map_append, List.map_cons, List.map_nil, List.mem_append,
        List.mem_singleton]
      split
      · rename_i hin
        rw [ih2]
        constructor
        · exact Or.inl
        · rintro (h | h)
          · exact h
          · subst h; exact (ih2 _).mp hin
      · rw [List.mem_append, List.mem_singleton, ih2]
    · intro k hk
      rw [ownProp_setProp, monthTotal_concat]
      by_cases h : monthKey e = k
      · subst h
        simp only [if_true]
        rw [hb]
      · simp only [h, if_false, jsnum_add_zero]
        apply ih3
        simp only [List.map_append, List.map_cons, List.map_nil, List.mem_append,
          List.mem_singleton] at hk
        rcases hk with hk | hk
        · exact hk
        · exact absurd hk.symm h

theorem char_eq_of_toNat_eq (a b : Char) (h : a.toNat = b.toNat) : a = b := by
  rw [← Char.ofNat_toNat a, ← Char.ofNat_toNat b, h]

theorem lexLe_total (a b : List Char) : lexLe a b = true ∨ lexLe b a = true := by
  induction a generalizing b with
  | nil => simp [lexLe]
  | cons x xs ih =>
    cases b with
    | nil => simp [lexLe]
    | cons y ys =>
      simp only [lexLe, Bool.or_eq_true, Bool.and_eq_true, decide_eq_true_eq]
      rcases Nat.lt_trichotomy x.toNat y.toNat with h | h | h
      · exact Or.inl (Or.inl h)
      · rcases ih ys with h2 | h2
        · exact Or.inl (Or.inr ⟨h, h2⟩)
        · exact Or.inr (Or.inr ⟨h.symm, h2⟩)
      · exact Or.inr (Or.inl h)

theorem lexLe_trans (a b c : List Char) (h1 : lexLe a b = true) (h2 : lexLe b c = true) :
    lexLe a c = true := by
  induction a generalizing b c with
  | nil => simp [lexLe]
  | cons x xs ih =>
    cases b with
    | nil => simp [lexLe] at h1
    | cons y ys =>
      cases c with
      | nil => simp [lexLe] at h2
      | cons z zs =>
        simp only [lexLe, Bool.or_eq_true, Bool.and_eq_true, decide_eq_true_eq] at h1 h2 ⊢
        rcases h1 with h1 | ⟨h1, h1b⟩
        · rcases h2 with h2 | ⟨h2, _⟩
          · exact Or.inl (by omega)
          · exact Or.inl (by omega)
        · rcases h2 with h2 | ⟨h2, h2b⟩
          · exact Or.inl (by omega)
          · exact Or.inr ⟨by omega, ih ys zs h1b h2b⟩

theorem lexLe_antisymm (a b : List Char) (h1 : lexLe a b = true) (h2 : lexLe b a = true) :
    a = b := by
  induction a generalizing b with
  | nil =>
    cases b with
    | nil => rfl
    | cons y ys => simp [lexLe] at h2
  | cons x xs ih =>
    cases b with
    | nil => simp [lexLe] at h1
    | cons y ys =>
      simp only [lexLe, Bool.or_eq_true, Bool.and_eq_true, decide_eq_true_eq] at h1 h2
      rcases h1 with h1 | ⟨h1, h1b⟩
      · rcases h2 with h2 | ⟨h2, _⟩ <;> omega
      · rcases h2 with h2 | ⟨_, h2b⟩
        · omega
        · rw [char_eq_of_toNat_eq x y h1, ih ys h1b h2b]

/-- Sorting the keys gives one result for all arrangements of the same distinct keys. -/
theorem sortKeys_eq_of_perm (l1 l2 : List String) (h : l1.Perm l2) :
    sortKeys l1 = sortKeys l2 := by
  haveI : IsTotal String (fun a b => lexLe a.data b.data = true) :=
    ⟨fun a b => lexLe_total a.data b.data⟩
  haveI : IsTrans String (fun a b => lexLe a.data b.data = true) :=
    ⟨fun a b c => lexLe_trans a.data b.data c.data⟩
  haveI : IsAntisymm String (fun a b => lexLe a.data b.data = true) :=
    ⟨fun a b h1 h2 => String.ext (lexLe_antisymm a.data b.data h1 h2)⟩
  unfold sortKeys
  apply List.eq_of_perm_of_sorted _ (List.sorted_insertionSort _ _) (List.sorted_insertionSort _ _)
  exact (List.perm_insertionSort _ _).trans (h.trans (List.perm_insertionSort _ _).symm)

/-! ## The forecast -/

theorem foldl_slot_add (a : JSNum) (l : List JSNum) :
    (l.map Slot.num).foldl Slot.add (Slot.num a) = Slot.num (a + l.sum) := by
  induction l generalizing a with
  | nil => simp [jsnum_add_zero]
  | cons x xs ih =>
    simp only [List.map_cons, List.foldl_cons, Slot.add, List.sum_cons]
    rw [ih, jsnum_add_assoc]

theorem months_eq_sortedMonths (expenses : List Expense)
    (hnum : ∀ e ∈ expenses, e.amount ≠ JSNum.nan)
    (hkey : ∀ e ∈ expenses, inheritedKey (monthKey e) = false) :
    months (monthlyMap expenses) = sortedMonths expenses := by
  obtain ⟨h1, h2, _⟩ := monthlyMap_invariant expenses hnum hkey
  unfold months sortedMonths
  apply sortKeys_eq_of_perm
  rw [List.perm_ext_iff_of_nodup h1 (List.nodup_dedup _)]
  intro k
  rw [h2, List.mem_dedup]

theorem mem_sortKeys (l : List String) (k : String) : k ∈ sortKeys l ↔ k ∈ l :=
  (List.perm_insertionSort _ l).mem_iff

/-- The reference list of months is what the words say: ascending, without repetition, and made
of exactly the month keys of the records. -/
theorem sortedMonths_sorted (expenses : List Expense) :
    (sortedMonths expenses).Pairwise (fun a b => lexLe a.data b.data = true) ∧
      (sortedMonths expenses).Nodup ∧
      (∀ k, k ∈ sortedMonths expenses ↔ ∃ e ∈ expenses, monthKey e = k) := by
  haveI : IsTotal String (fun a b => lexLe a.data b.data = true) :=
    ⟨fun a b => lexLe_total a.data b.data⟩
  haveI : IsTrans String (fun a b => lexLe a.data b.data = true) :=
    ⟨fun a b c => lexLe_trans a.data b.data c.data⟩
  refine ⟨List.sorted_insertionSort _ _, ?_, ?_⟩
  · exact (List.perm_insertionSort _ _).nodup_iff.mpr (List.nodup_dedup _)
  · intro k
    unfold sortedMonths
    rw [mem_sortKeys, List.mem_dedup, List.mem_map]

theorem split_join (ls : List String) (sep : Char) (hne : ls ≠ [])
    (h : ∀ l ∈ ls, sep ∉ l.data) : split (join ls (String.mk [sep])) sep = ls := by
  unfold split join
  simp only
  rw [List.splitOn_intercalate]
  · rw [List.map_map]
    conv_rhs => rw [← List.map_id ls]
    rfl
  · intro l hl
    rw [List.mem_map] at hl
    obtain ⟨s, hs, rfl⟩ := hl
    exact h s hs
  · simpa using hne

theorem exportRow_data (numToString : JSNum → String) (e : Expense) :
    (exportRow numToString e).data = List.intercalate [',']
      [(numToString (JSNum.num e.id)).data, '"' :: (e.desc.data ++ ['"']),
        (numToString e.amount).data, e.category.data, e.date.data] := by
  simp [exportRow, List.intercalate, List.intersperse, String.data_append]

theorem importLine_exportRow (numToString : JSNum → String) (toNumber : String → JSNum)
    (id : ℚ) (e : Expense)
    (hid : ',' ∉ (numToString (JSNum.num e.id)).data)
    (hamt : ',' ∉ (numToString e.amount).data)
    (hround : toNumber (numToString e.amount) = e.amount)
    (hd : csvSafe e.desc) (hc : csvSafe e.category) (ht : csvSafe e.date) :
    importLine toNumber id (exportRow numToString e) = some { e with id := id } := by
  have hsplit : (exportRow numToString e).data.splitOn ',' =
      [(numToString (JSNum.num e.id)).data, '"' :: (e.desc.data ++ ['"']),
        (numToString e.amount).data, e.category.data, e.date.data] := by
    rw [exportRow_data]
    apply List.splitOn_intercalate
    · intro l hl
      simp only [List.mem_cons, List.mem_singleton, List.not_mem_nil, or_false] at hl
      rcases hl with rfl | rfl | rfl | rfl | rfl
      · exact hid
      · have := hd.1
        simp only [List.mem_cons, List.mem_append, List.mem_singleton, not_or]
        exact ⟨by decide, this, by decide⟩
      · exact hamt
      · exact hc.1
      · exact ht.1
    · simp
  have hq : (List.filter (fun c => decide (c ≠ '"')) ('"' :: (e.desc.data ++ ['"']))) =
      e.desc.data := by
    have h2 := hd.2.1
    simp only [List.filter_cons, ne_eq, not_true_eq_false, decide_False, Bool.false_eq_true,
      if_false, List.filter_append, List.filter_nil, List.append_nil]
    rw [List.filter_eq_self]
    intro c hc2
    simp only [decide_not, Bool.not_eq_true', decide_eq_false_iff_not]
    intro hcq
    exact h2 (hcq ▸ hc2)
  unfold importLine split
  rw [hsplit]
  simp only [List.map_cons, List.map_nil, stripQuotes, hq, hround]

theorem importItems_export (numToString : JSNum → String) (toNumber : String → JSNum)
    (ids : Nat → ℚ) (rs : List Expense) (k : Nat)
    (hnum : ∀ r ∈ rs, ',' ∉ (numToString (JSNum.num r.id)).data ∧
      ',' ∉ (numToString r.amount).data ∧ toNumber (numToString r.amount) = r.amount)
    (hfields : ∀ r ∈ rs, csvSafe r.desc ∧ csvSafe r.category ∧ csvSafe r.date) :
    importItems toNumber ids k (rs.map (exportRow numToString)) = some (withIds ids k rs) := by
  induction rs generalizing k with
  | nil => rfl
  | cons r rs ih =>
    have h1 := hnum r (List.mem_cons_self _ _)
    have h2 := hfields r (List.mem_cons_self _ _)
    have ih2 := ih (k + 1) (fun x hx => hnum x (List.mem_cons_of_mem _ hx))
      (fun x hx => hfields x (List.mem_cons_of_mem _ hx))
    simp only [List.map_cons, importItems, withIds]
    rw [importLine_exportRow numToString toNumber (ids k) r h1.1 h1.2.1 h1.2.2 h2.1 h2.2.1 h2.2.2,
      ih2]

theorem exportRow_no_newline (numToString : JSNum → String) (e : Expense)
    (hid : '\n' ∉ (numToString (JSNum.num e.id)).data)
    (hamt : '\n' ∉ (numToString e.amount).data)
    (hd : csvSafe e.desc) (hc : csvSafe e.category) (ht : csvSafe e.date) :
    '\n' ∉ (exportRow numToString e).data := by
  have h1 := hd.2.2
  have h2 := hc.2.2
  have h3 := ht.2.2
  simp only [exportRow, String.data_append, List.mem_append, not_or]
  refine ⟨⟨⟨⟨⟨⟨⟨⟨hid, by decide⟩, h1⟩, by decide⟩, hamt⟩, by decide⟩, h2⟩, by decide⟩, h3⟩

theorem exportRow_ne_empty (numToString : JSNum → String) (e : Expense) :
    exportRow numToString e ≠ "" := by
  intro h
  have h2 := congrArg String.data h
  rw [exportRow_data] at h2
  simp [List.intercalate, List.intersperse] at h2

theorem withIds_sameFields (ids : Nat → ℚ) (k : Nat) (rs : List Expense) :
    List.Forall₂ sameFields (withIds ids k rs) rs := by
  induction rs generalizing k with
  | nil => exact List.Forall₂.nil
  | cons r rs ih => exact List.Forall₂.cons ⟨rfl, rfl, rfl, rfl⟩ (ih (k + 1))

/-- Claim C9 as stated fails: commas and double quotes are not the only characters that break the
round trip, a line feed does too. A record whose date ends in a line feed comes back with that
line feed gone; a record whose description holds a line feed is exported as two lines, and one
object is pushed per line on the way back (neither line has five columns). -/
theorem roundtrip_breaks_on_line_feed :
    (∃ text, exportCsv sampleText
        [ { id := 1, desc := "x", amount := JSNum.num 50, category := "Food",
            date := "2024-01-05\n" } ] = some text ∧
      importOnload sampleNumber (fun _ => "") (fun k => k) text
        { expenses := [], storage := none } =
        some { expenses := [ { id := 0, desc := "x", amount := JSNum.num 50,
                               category := "Food", date := "2024-01-05" } ],
               storage := some "" }) ∧
      (∃ text, exportCsv sampleText
        [ { id := 1, desc := "a\nb", amount := JSNum.num 50, category := "Food",
            date := "2024-01-05" } ] = some text ∧
        dataLines text = ["1,\"a", "b\",50,Food,2024-01-05"] ∧
        importOnload sampleNumber (fun _ => "") (fun k => k) text
          { expenses := [], storage := none } = none) := by
  refine ⟨⟨_, rfl, ?_⟩, ⟨_, rfl, ?_, ?_⟩⟩ <;> decide!

/-- Claim C9, amended. For a non-empty array whose descriptions, categories and dates hold no
comma, no double quote and no line feed (numbers being written without comma or line feed and read
back as themselves), importing the exported text appends exactly as many records, in the same
order, with the same description, amount, category and date; only the ids are new. -/
theorem export_import_roundtrip (numToString : JSNum → String) (toNumber : String → JSNum)
    (stringify : List Expense → String) (ids : Nat → ℚ) (app : App) (rs : List Expense)
    (hne : rs ≠ [])
    (hnum : ∀ r ∈ rs, plainText (numToString (JSNum.num r.id)) ∧
      plainText (numToString r.amount) ∧ toNumber (numToString r.amount) = r.amount)
    (hfields : ∀ r ∈ rs, csvSafe r.desc ∧ csvSafe r.category ∧ csvSafe r.date) :
    ∃ text items, exportCsv numToString rs = some text ∧
      importOnload toNumber stringify ids text app =
        some { expenses := app.expenses ++ items,
               storage := some (stringify (app.expenses ++ items)) } ∧
      items.length = rs.length ∧ List.Forall₂ sameFields items rs := by
  have hlen : ¬ rs.length = 0 := fun h => hne (List.length_eq_zero.mp h)
  refine ⟨join ("id,desc,amount,category,date" :: rs.map (exportRow numToString)) "\n",
    withIds ids 0 rs, by simp only [exportCsv, hlen, if_false], ?_,
    (withIds_sameFields ids 0 rs).length_eq, withIds_sameFields ids 0 rs⟩
  have hlines : dataLines (join ("id,desc,amount,category,date" ::
      rs.map (exportRow numToString)) "\n") = rs.map (exportRow numToString) := by
    unfold dataLines
    rw [show ("\n" : String) = String.mk ['\n'] from rfl, split_join]
    · simp only [List.drop_succ_cons, List.drop_zero]
      rw [List.filter_eq_self]
      intro l hl
      rw [List.mem_map] at hl
      obtain ⟨r, _, rfl⟩ := hl
      simpa using exportRow_ne_empty numToString r
    · simp
    · intro l hl
      rcases List.mem_cons.mp hl with rfl | hl
      · decide
      · rw [List.mem_map] at hl
        obtain ⟨r, hr, rfl⟩ := hl
        have h1 := hnum r hr
        have h2 := hfields r hr
        exact exportRow_no_newline numToString r h1.1.2 h1.2.1.2 h2.1 h2.2.1 h2.2.2
  unfold importOnload
  rw [hlines, importItems_export numToString toNumber ids rs 0
    (fun r hr => ⟨(hnum r hr).1.1, (hnum r hr).2.1.1, (hnum r hr).2.2⟩) hfields]

theorem export_import_roundtrip_witness :
    ∃ text items, exportCsv sampleText scenario = some text ∧
      importOnload sampleNumber (fun _ => "") (fun k => k) text
          { expenses := [], storage := none } =
        some { expenses := [] ++ items, storage := some "" } ∧
      items.length = scenario.length ∧ List.Forall₂ sameFields items scenario :=
  export_import_roundtrip sampleText sampleNumber (fun _ => "") (fun k => k)
    { expenses := [], storage := none } scenario (by decide) (by decide!) (by decide)

/-! ## Worked examples -/

theorem applyFilters_spec_witness :
    (∀ r ∈ scenario, WellFormedDate r.date) ∧
      applyFilters noLegacy ⟨"Travel", "", ""⟩ scenario =
        [ { id := 3, desc := "c", amount := JSNum.num 200, category := "Travel",
            date := "2024-02-15" } ] ∧
      applyFilters noLegacy ⟨"Travel", "", ""⟩ scenario =
        scenario.filter (keeps ⟨"Travel", "", ""⟩) :=
  ⟨by decide, by decide!,
    (applyFilters_spec noLegacy ⟨"Travel", "", ""⟩ scenario (by decide) (by decide)
      (by decide)).1⟩

theorem saveModal_spec_witness :
    saveModal sampleNumber (fun _ => "") ⟨1708387200000, 2024, 1, "2024-02-20"⟩
        ⟨"", "12.5", "", ""⟩ { expenses := [], storage := none } =
        ({ expenses := [ { id := 1708387200000, desc := "Untitled", amount := JSNum.num (25 / 2),
                           category := "Other", date := "2024-02-20" } ],
           storage := some "" }, false) ∧
      (saveModal sampleNumber (fun _ => "") ⟨1708387200000, 2024, 1, "2024-02-20"⟩
        ⟨"Tea", "abc", "Food", ""⟩ { expenses := scenario, storage := none }).1 =
        { expenses := scenario, storage := none } :=
  ⟨by decide!,
    (saveModal_spec sampleNumber (fun _ => "") ⟨1708387200000, 2024, 1, "2024-02-20"⟩
      ⟨"Tea", "abc", "Food", ""⟩ { expenses := scenario, storage := none }).2.1 (by decide!)⟩

end ExpenseTracker
